import Mathlib

/-!
# Verification of the multilayer-perceptron builder and weight initializer

Shallow embedding of the two pieces of original logic in
`NeuralNet_FunctionApproximation.ipynb`:

* `get_multilayer_perceptron` builds a nested `torch.nn.Sequential`
  network of `Linear` layers interleaved with a single shared
  activation object;
* `init_weights`, mapped over the network with `net.apply(init_weights)`,
  redraws every `Linear` layer's weight and bias entries from a
  Normal(0, 0.5) distribution in place.

Modelling choices:

* Scalar tensor entries are modelled as rationals (`Val := ℚ`).
* Randomness is modelled by an abstract stream `g : ℕ → Val` of
  independent standard-normal draws together with a counter: the library
  call `normal_(t, mean, std)` fills the tensor element-wise with
  `mean + std * g c` at consecutive fresh counter positions `c`.
* Python object identity is modelled by an `objId : ℕ` tag on activation
  objects; the builder receives the next fresh id `nextObj` and each
  evaluation of `torch.nn.Tanh()` / `torch.nn.ReLU()` consumes one id.
  The source constructs the activation object exactly once.
* `torch.nn.Linear(a, b)` allocates a weight matrix of shape `b × a`
  (PyTorch stores out × in) and a bias vector of length `b`.  Their
  library-default initial values are modelled by a fixed placeholder `0`;
  no claim depends on the default values.
* The Python `raise NotImplementedError(...)` is modelled by
  `Except.error` with the exception's message.
* `range(n_hidden_layers - 1)` is modelled by
  `List.range (n_hidden_layers - 1)` over `ℕ`; for
  `n_hidden_layers ∈ {0, 1}` both the Python range (`range(-1)` resp.
  `range(0)`) and the ℕ-truncated range are empty, so the translation is
  faithful on all non-negative layer counts.
-/

/-- Scalar values of tensor entries. -/
abbrev Val := ℚ

/-- Activation kinds recognized by the builder (`torch.nn.Tanh`,
`torch.nn.ReLU`). -/
inductive ActKind where
  | tanh : ActKind
  | relu : ActKind
deriving DecidableEq, Repr

/-- A PyTorch module as used by the notebook: `torch.nn.Linear`
(carrying `in_features`, `out_features`, the weight matrix stored
out × in, and the bias vector), a stateless activation object tagged
with its Python object identity, or `torch.nn.Sequential` with an
ordered list of child modules. -/
inductive NNModule where
  | linear (in_features out_features : ℕ)
      (weight : List (List Val)) (bias : List Val) : NNModule
  | act (kind : ActKind) (objId : ℕ) : NNModule
  | sequential (children : List NNModule) : NNModule
deriving Repr

/-- Model of `torch.nn.Linear(in_features, out_features)`: weight of shape
`out_features × in_features` and bias of length `out_features`, filled
with the placeholder default value `0`. -/
def mkLinear (in_features out_features : ℕ) : NNModule :=
  NNModule.linear in_features out_features
    (List.replicate out_features (List.replicate in_features 0))
    (List.replicate out_features 0)

/-- The runtime activation dispatch at the top of
`get_multilayer_perceptron`: `'tanh'` and `'relu'` are the recognized
strings. -/
def actKindOf (activation : String) : Option ActKind :=
  if activation = "tanh" then some ActKind.tanh
  else if activation = "relu" then some ActKind.relu
  else none

/-- Translation of `get_multilayer_perceptron(n_network, n_class, n_hidden_layers,
n_hidden_dimension, activation)` from the notebook.  `nextObj` is the
fresh Python object id consumed by the single activation construction.
The if/elif/else dispatch runs first and raises
`NotImplementedError('Activation function not implemented')` for an
unrecognized activation; otherwise the nested `Sequential` structure is
built exactly as in the source: `Sequential(Linear(n_network, h), act)`,
then the loop `for i in range(n_hidden_layers - 1)` rewraps
`Sequential(model, Linear(h, h), act)`, then the final
`Sequential(model, Linear(h, n_class))`. -/
def get_multilayer_perceptron (n_network n_class n_hidden_layers n_hidden_dimension : ℕ)
    (activation : String) (nextObj : ℕ) : Except String NNModule :=
  match actKindOf activation with
  | none => Except.error "Activation function not implemented"
  | some k =>
    let activationfn := NNModule.act k nextObj
    let model := NNModule.sequential [mkLinear n_network n_hidden_dimension, activationfn]
    let model := (List.range (n_hidden_layers - 1)).foldl
      (fun m _ => NNModule.sequential
        [m, mkLinear n_hidden_dimension n_hidden_dimension, activationfn]) model
    Except.ok (NNModule.sequential [model, mkLinear n_hidden_dimension n_class])

mutual

/-- Number of `torch.nn.Linear` (affine) layers in a module tree. -/
def countLinear : NNModule → ℕ
  | NNModule.linear _ _ _ _ => 1
  | NNModule.act _ _ => 0
  | NNModule.sequential cs => countLinearList cs

/-- Number of affine layers in a list of module trees. -/
def countLinearList : List NNModule → ℕ
  | [] => 0
  | m :: ms => countLinear m + countLinearList ms

end

mutual

/-- The atomic layers (`Linear` and activation objects) of a module
tree in left-to-right evaluation order, with `Sequential` nesting
dissolved. -/
def flatten : NNModule → List NNModule
  | NNModule.linear i o w b => [NNModule.linear i o w b]
  | NNModule.act k j => [NNModule.act k j]
  | NNModule.sequential cs => flattenList cs

/-- Extension of `flatten` to a list of module trees. -/
def flattenList : List NNModule → List NNModule
  | [] => []
  | m :: ms => flatten m ++ flattenList ms

end

/-- The value produced for stream position `j` by a library draw from a
Normal distribution with the given mean and standard deviation:
`mean + std * g j`, where `g` is the abstract stream of independent
standard-normal draws. -/
def normalDraw (mean std : Val) (g : ℕ → Val) (j : ℕ) : Val :=
  mean + std * g j

/-- In-place element-wise refill of a 1-dimensional tensor
(`tensor.normal_(mean, std)` / `torch.nn.init.normal_`): every entry is
overwritten with the next fresh draw; returns the refilled tensor and
the advanced stream counter. -/
def normalFillVec (mean std : Val) (g : ℕ → Val) :
    ℕ → List Val → List Val × ℕ
  | c, [] => ([], c)
  | c, _ :: xs =>
    let r := normalFillVec mean std g (c + 1) xs
    (normalDraw mean std g c :: r.1, r.2)

/-- In-place element-wise refill of a 2-dimensional tensor, row by row
(`torch.nn.init.normal_(m.weight, 0, 0.5)` on a weight matrix). -/
def normalFillMat (mean std : Val) (g : ℕ → Val) :
    ℕ → List (List Val) → List (List Val) × ℕ
  | c, [] => ([], c)
  | c, row :: rows =>
    let r1 := normalFillVec mean std g c row
    let r2 := normalFillMat mean std g r1.2 rows
    (r1.1 :: r2.1, r2.2)

/-- Translation of `init_weights(m)` from the notebook: if `m` is a `torch.nn.Linear`,
redraw `m.weight` (first) and then `m.bias` element-wise from
Normal(0, 0.5); any other module is left untouched.  The stream counter
`c` models the global random-generator state. -/
def init_weights (g : ℕ → Val) (c : ℕ) (m : NNModule) : NNModule × ℕ :=
  match m with
  | NNModule.linear i o w b =>
    let rw := normalFillMat 0 (1/2) g c w
    let rb := normalFillVec 0 (1/2) g rw.2 b
    (NNModule.linear i o rw.1 rb.1, rb.2)
  | m => (m, c)

mutual

/-- Translation of `net.apply(init_weights)`: PyTorch `Module.apply(fn)` recursively
applies `fn` to every child module (depth-first, children in order) and
then to the module itself, returning the modified module.  The stream
counter threads through in visit order. -/
def net_apply (g : ℕ → Val) (c : ℕ) : NNModule → NNModule × ℕ
  | NNModule.linear i o w b => init_weights g c (NNModule.linear i o w b)
  | NNModule.act k j => init_weights g c (NNModule.act k j)
  | NNModule.sequential cs =>
    let r := net_apply_children g c cs
    init_weights g r.2 (NNModule.sequential r.1)

/-- The traversal of `Module.apply` over the ordered children of a `Sequential`. -/
def net_apply_children (g : ℕ → Val) (c : ℕ) :
    List NNModule → List NNModule × ℕ
  | [] => ([], c)
  | m :: ms =>
    let r := net_apply g c m
    let rs := net_apply_children g r.2 ms
    (r.1 :: rs.1, rs.2)

end

/-- Sequentially reinitialize a flat list of atomic layers: the
reference behaviour a purely top-level (non-recursive) traversal would
have on an already-flattened network. -/
def initFlat (g : ℕ → Val) : ℕ → List NNModule → List NNModule × ℕ
  | c, [] => ([], c)
  | c, m :: ms =>
    let r := init_weights g c m
    let rs := initFlat g r.2 ms
    (r.1 :: rs.1, rs.2)

mutual

/-- All scalar learnable parameters of a module tree, in traversal
order: for each `Linear`, the weight entries row-major followed by the
bias entries. -/
def params : NNModule → List Val
  | NNModule.linear _ _ w b => w.flatten ++ b
  | NNModule.act _ _ => []
  | NNModule.sequential cs => paramsList cs

/-- Extension of `params` to a list of module trees. -/
def paramsList : List NNModule → List Val
  | [] => []
  | m :: ms => params m ++ paramsList ms

end

mutual

/-- The shape of every parameter tensor in a module tree: for each
`Linear` layer in order, the list of its weight-row lengths and its
bias length. -/
def paramShapes : NNModule → List (List ℕ × ℕ)
  | NNModule.linear _ _ w b => [(w.map List.length, b.length)]
  | NNModule.act _ _ => []
  | NNModule.sequential cs => paramShapesList cs

/-- Extension of `paramShapes` to a list of module trees. -/
def paramShapesList : List NNModule → List (List ℕ × ℕ)
  | [] => []
  | m :: ms => paramShapes m ++ paramShapesList ms

end

mutual

/-- Erase the weight and bias contents of every `Linear` layer, keeping
everything else: the structure, the `in_features`/`out_features`
fields, and every non-affine module (activation kinds and object ids)
unchanged. -/
def eraseParams : NNModule → NNModule
  | NNModule.linear i o _ _ => NNModule.linear i o [] []
  | NNModule.act k j => NNModule.act k j
  | NNModule.sequential cs => NNModule.sequential (eraseParamsList cs)

/-- Extension of `eraseParams` to a list of module trees. -/
def eraseParamsList : List NNModule → List NNModule
  | [] => []
  | m :: ms => eraseParams m :: eraseParamsList ms

end

/-- Iterate `net.apply(init_weights)` a number of times, threading the
module and the stream counter. -/
def applyIter (g : ℕ → Val) : ℕ → NNModule × ℕ → NNModule × ℕ
  | 0, p => p
  | k + 1, p => applyIter g k (net_apply g p.2 p.1)

/-- The builder `get_multilayer_perceptron` instrumented with its allocation trace:
alongside the result, the list of `torch.nn.Linear(a, b)` constructor
calls actually executed, as `(a, b)` pairs in execution order.  The
activation dispatch runs before any `Linear` construction, exactly as
in the source, so an unrecognized activation raises with an empty
trace. -/
def get_multilayer_perceptron_traced (n_network n_class n_hidden_layers n_hidden_dimension : ℕ)
    (activation : String) (nextObj : ℕ) :
    List (ℕ × ℕ) × Except String NNModule :=
  match actKindOf activation with
  | none => ([], Except.error "Activation function not implemented")
  | some k =>
    let activationfn := NNModule.act k nextObj
    let start :=
      ([(n_network, n_hidden_dimension)],
        NNModule.sequential [mkLinear n_network n_hidden_dimension, activationfn])
    let loop := (List.range (n_hidden_layers - 1)).foldl
      (fun p _ =>
        (p.1 ++ [(n_hidden_dimension, n_hidden_dimension)],
          NNModule.sequential
            [p.2, mkLinear n_hidden_dimension n_hidden_dimension, activationfn]))
      start
    (loop.1 ++ [(n_hidden_dimension, n_class)],
      Except.ok (NNModule.sequential [loop.2, mkLinear n_hidden_dimension n_class]))

/-- The object id of an activation module, `none` for anything else. -/
def actIdOf : NNModule → Option ℕ
  | NNModule.act _ j => some j
  | _ => none

/-- The `(in_features, out_features)` dimension pair of a `Linear`
module, `none` for anything else. -/
def linearDims : NNModule → Option (ℕ × ℕ)
  | NNModule.linear i o _ _ => some (i, o)
  | _ => none

/-! ## Basic lemmas about the element-wise refill operations -/

theorem normalFillVec_eq (μ σ : Val) (g : ℕ → Val) :
    ∀ (xs : List Val) (c : ℕ),
      normalFillVec μ σ g c xs
        = ((List.range xs.length).map (fun j => normalDraw μ σ g (c + j)),
            c + xs.length)
  | [], c => by simp [normalFillVec]
  | x :: xs, c => by
    simp only [normalFillVec, normalFillVec_eq μ σ g xs (c + 1), List.length_cons,
      List.range_succ_eq_map, List.map_cons, List.map_map, Prod.mk.injEq]
    refine ⟨?_, by omega⟩
    congr 1
    apply List.map_congr_left
    intro j _
    simp only [Function.comp_apply]
    exact congrArg (normalDraw μ σ g) (by omega)

theorem normalFillMat_snd (μ σ : Val) (g : ℕ → Val) :
    ∀ (rows : List (List Val)) (c : ℕ),
      (normalFillMat μ σ g c rows).2 = c + rows.flatten.length
  | [], c => by simp [normalFillMat]
  | row :: rows, c => by
    simp only [normalFillMat, normalFillVec_eq, normalFillMat_snd μ σ g rows,
      List.flatten_cons, List.length_append]
    omega

theorem normalFillMat_flatten (μ σ : Val) (g : ℕ → Val) :
    ∀ (rows : List (List Val)) (c : ℕ),
      (normalFillMat μ σ g c rows).1.flatten
        = (List.range rows.flatten.length).map (fun j => normalDraw μ σ g (c + j))
  | [], c => by simp [normalFillMat]
  | row :: rows, c => by
    simp only [normalFillMat, normalFillVec_eq,
      normalFillMat_flatten μ σ g rows (c + row.length),
      List.flatten_cons, List.length_append, List.range_add,
      List.map_append, List.map_map]
    congr 1
    apply List.map_congr_left
    intro j _
    simp only [Function.comp_apply]
    exact congrArg (normalDraw μ σ g) (by omega)

theorem normalFillMat_shape (μ σ : Val) (g : ℕ → Val) :
    ∀ (rows : List (List Val)) (c : ℕ),
      (normalFillMat μ σ g c rows).1.map List.length = rows.map List.length
  | [], c => by simp [normalFillMat]
  | row :: rows, c => by
    simp [normalFillMat, normalFillVec_eq, normalFillMat_shape μ σ g rows]

theorem normalFillVec_length (μ σ : Val) (g : ℕ → Val) (c : ℕ) (xs : List Val) :
    (normalFillVec μ σ g c xs).1.length = xs.length := by
  simp [normalFillVec_eq]

/-- Splitting a map over an index range at an intermediate point. -/
theorem range_map_add {α : Type} (f : ℕ → α) (s t c : ℕ) :
    (List.range (s + t)).map (fun j => f (c + j))
      = (List.range s).map (fun j => f (c + j))
        ++ (List.range t).map (fun j => f (c + s + j)) := by
  rw [List.range_add, List.map_append, List.map_map]
  congr 1
  apply List.map_congr_left
  intro j _
  simp only [Function.comp_apply]
  exact congrArg f (by omega)

/-! ## Characterization of `init_weights` on a single module -/

theorem init_weights_linear_params (g : ℕ → Val) (c i o : ℕ)
    (w : List (List Val)) (b : List Val) :
    params (init_weights g c (NNModule.linear i o w b)).1
        = (List.range (params (NNModule.linear i o w b)).length).map
            (fun j => normalDraw 0 (1/2) g (c + j))
      ∧ (init_weights g c (NNModule.linear i o w b)).2
        = c + (params (NNModule.linear i o w b)).length := by
  simp only [init_weights, params, List.length_append]
  constructor
  · rw [normalFillMat_flatten, normalFillVec_eq, normalFillMat_snd, range_map_add]
  · rw [normalFillVec_eq, normalFillMat_snd]
    simp
    omega

mutual

theorem net_apply_params (g : ℕ → Val) :
    ∀ (c : ℕ) (m : NNModule),
      params (net_apply g c m).1
          = (List.range (params m).length).map (fun j => normalDraw 0 (1/2) g (c + j))
        ∧ (net_apply g c m).2 = c + (params m).length
  | c, NNModule.linear i o w b => by
    simpa [net_apply] using init_weights_linear_params g c i o w b
  | c, NNModule.act k j => by
    simp [net_apply, init_weights, params]
  | c, NNModule.sequential cs => by
    have h := net_apply_children_params g c cs
    simpa [net_apply, init_weights, params] using h

theorem net_apply_children_params (g : ℕ → Val) :
    ∀ (c : ℕ) (ms : List NNModule),
      paramsList (net_apply_children g c ms).1
          = (List.range (paramsList ms).length).map (fun j => normalDraw 0 (1/2) g (c + j))
        ∧ (net_apply_children g c ms).2 = c + (paramsList ms).length
  | c, [] => by
    simp [net_apply_children, paramsList]
  | c, m :: ms => by
    obtain ⟨h1, h1c⟩ := net_apply_params g c m
    obtain ⟨h2, h2c⟩ := net_apply_children_params g (net_apply g c m).2 ms
    simp only [net_apply_children, paramsList, List.length_append]
    constructor
    · rw [h1, h2, h1c, range_map_add]
    · rw [h2c, h1c]
      omega

end

/-! ## The recursive traversal reaches exactly the flattened layers -/

theorem initFlat_append (g : ℕ → Val) :
    ∀ (xs ys : List NNModule) (c : ℕ),
      initFlat g c (xs ++ ys)
        = ((initFlat g c xs).1 ++ (initFlat g (initFlat g c xs).2 ys).1,
            (initFlat g (initFlat g c xs).2 ys).2)
  | [], ys, c => by simp [initFlat]
  | x :: xs, ys, c => by
    simp [initFlat, initFlat_append g xs ys]

mutual

theorem net_apply_flatten (g : ℕ → Val) :
    ∀ (c : ℕ) (m : NNModule),
      flatten (net_apply g c m).1 = (initFlat g c (flatten m)).1
        ∧ (net_apply g c m).2 = (initFlat g c (flatten m)).2
  | c, NNModule.linear i o w b => by
    simp [net_apply, init_weights, initFlat, flatten]
  | c, NNModule.act k j => by
    simp [net_apply, init_weights, initFlat, flatten]
  | c, NNModule.sequential cs => by
    have h := net_apply_children_flatten g c cs
    simpa [net_apply, init_weights, flatten] using h

theorem net_apply_children_flatten (g : ℕ → Val) :
    ∀ (c : ℕ) (ms : List NNModule),
      flattenList (net_apply_children g c ms).1 = (initFlat g c (flattenList ms)).1
        ∧ (net_apply_children g c ms).2 = (initFlat g c (flattenList ms)).2
  | c, [] => by
    simp [net_apply_children, flattenList, initFlat]
  | c, m :: ms => by
    obtain ⟨h1, h1c⟩ := net_apply_flatten g c m
    obtain ⟨h2, h2c⟩ := net_apply_children_flatten g (net_apply g c m).2 ms
    simp only [net_apply_children, flattenList, initFlat_append]
    rw [← h1c]
    exact ⟨by rw [h1, h2], by rw [h2c]⟩

end

/-! ## Frame and shape preservation of the traversal -/

mutual

theorem net_apply_preserves (g : ℕ → Val) :
    ∀ (c : ℕ) (m : NNModule),
      eraseParams (net_apply g c m).1 = eraseParams m
        ∧ paramShapes (net_apply g c m).1 = paramShapes m
  | c, NNModule.linear i o w b => by
    simp [net_apply, init_weights, eraseParams, paramShapes,
      normalFillMat_shape, normalFillVec_length]
  | c, NNModule.act k j => by
    simp [net_apply, init_weights]
  | c, NNModule.sequential cs => by
    have h := net_apply_children_preserves g c cs
    simpa [net_apply, init_weights, eraseParams, paramShapes] using h

theorem net_apply_children_preserves (g : ℕ → Val) :
    ∀ (c : ℕ) (ms : List NNModule),
      eraseParamsList (net_apply_children g c ms).1 = eraseParamsList ms
        ∧ paramShapesList (net_apply_children g c ms).1 = paramShapesList ms
  | c, [] => by
    simp [net_apply_children]
  | c, m :: ms => by
    obtain ⟨h1, h1s⟩ := net_apply_preserves g c m
    obtain ⟨h2, h2s⟩ := net_apply_children_preserves g (net_apply g c m).2 ms
    simp only [net_apply_children, eraseParamsList, paramShapesList]
    exact ⟨by rw [h1, h2], by rw [h1s, h2s]⟩

end

/-! ## Characterization of the builder -/

/-- A `for i in range(n)` loop whose body ignores the loop index is the
`n`-fold iterate of its body. -/
theorem foldl_range_const {α : Type} (f : α → α) (b : α) :
    ∀ n : ℕ, (List.range n).foldl (fun m _ => f m) b = f^[n] b
  | 0 => rfl
  | n + 1 => by
    rw [List.range_succ, List.foldl_append, foldl_range_const f b n,
      Function.iterate_succ_apply']
    rfl

theorem flatten_stepIter (h id : ℕ) (k : ActKind) (base : NNModule) :
    ∀ n : ℕ,
      flatten ((fun m => NNModule.sequential
          [m, mkLinear h h, NNModule.act k id])^[n] base)
        = flatten base
          ++ (List.replicate n [mkLinear h h, NNModule.act k id]).flatten
  | 0 => by simp
  | n + 1 => by
    rw [Function.iterate_succ_apply']
    simp only [flatten, flattenList]
    rw [flatten_stepIter h id k base n, List.replicate_succ']
    simp [flatten, flattenList, mkLinear]

theorem countLinear_stepIter (h id : ℕ) (k : ActKind) (base : NNModule) :
    ∀ n : ℕ,
      countLinear ((fun m => NNModule.sequential
          [m, mkLinear h h, NNModule.act k id])^[n] base)
        = countLinear base + n
  | 0 => rfl
  | n + 1 => by
    rw [Function.iterate_succ_apply']
    simp only [countLinear, countLinearList]
    rw [countLinear_stepIter h id k base n]
    simp [countLinear, countLinearList, mkLinear]
    omega

/-- On a recognized activation string the builder returns exactly the
nested `Sequential` value obtained by iterating the loop body
`n_hidden_layers - 1` times around the innermost pair. -/
theorem get_mlp_ok (a o n h id : ℕ) (act : String) (k : ActKind)
    (hk : actKindOf act = some k) :
    get_multilayer_perceptron a o n h act id
      = Except.ok (NNModule.sequential
          [(fun m => NNModule.sequential [m, mkLinear h h, NNModule.act k id])^[n - 1]
              (NNModule.sequential [mkLinear a h, NNModule.act k id]),
            mkLinear h o]) := by
  simp only [get_multilayer_perceptron, hk]
  rw [foldl_range_const]

/-- The flattened layer sequence of any successfully built network. -/
theorem get_mlp_flatten (a o n h id : ℕ) (act : String) (k : ActKind)
    (hk : actKindOf act = some k) (m : NNModule)
    (hm : get_multilayer_perceptron a o n h act id = Except.ok m) :
    flatten m
      = [mkLinear a h, NNModule.act k id]
        ++ (List.replicate (n - 1) [mkLinear h h, NNModule.act k id]).flatten
        ++ [mkLinear h o] := by
  rw [get_mlp_ok a o n h id act k hk] at hm
  obtain rfl : m = _ := (Except.ok.injEq _ _).mp hm.symm
  simp only [flatten, flattenList, flatten_stepIter]
  simp [flatten, flattenList, mkLinear]

/-- The affine-layer count of any successfully built network. -/
theorem get_mlp_count (a o n h id : ℕ) (act : String) (k : ActKind)
    (hk : actKindOf act = some k) (m : NNModule)
    (hm : get_multilayer_perceptron a o n h act id = Except.ok m) :
    countLinear m = (n - 1) + 2 := by
  rw [get_mlp_ok a o n h id act k hk] at hm
  obtain rfl : m = _ := (Except.ok.injEq _ _).mp hm.symm
  simp only [countLinear, countLinearList, countLinear_stepIter]
  simp [countLinear, countLinearList, mkLinear]
  omega

/-! ## The activation object ids and linear dimensions of the layer list -/

theorem filterMap_actIdOf_rep (h id : ℕ) (k : ActKind) :
    ∀ n : ℕ,
      ((List.replicate n [mkLinear h h, NNModule.act k id]).flatten).filterMap actIdOf
        = List.replicate n id
  | 0 => rfl
  | n + 1 => by
    simp only [List.replicate_succ, List.flatten_cons, List.filterMap_append,
      filterMap_actIdOf_rep h id k n]
    simp [mkLinear, actIdOf]

theorem filterMap_linearDims_rep (h id : ℕ) (k : ActKind) :
    ∀ n : ℕ,
      ((List.replicate n [mkLinear h h, NNModule.act k id]).flatten).filterMap linearDims
        = List.replicate n (h, h)
  | 0 => rfl
  | n + 1 => by
    simp only [List.replicate_succ, List.flatten_cons, List.filterMap_append,
      filterMap_linearDims_rep h id k n]
    simp [mkLinear, linearDims]

theorem chain_dims (h o : ℕ) :
    ∀ (n x : ℕ),
      List.Chain' (fun p q : ℕ × ℕ => p.2 = q.1)
        ((x, h) :: (List.replicate n (h, h) ++ [(h, o)]))
  | 0, x => by simp
  | n + 1, x => by
    rw [List.replicate_succ, List.cons_append, List.chain'_cons]
    exact ⟨rfl, chain_dims h o n h⟩

/-! ## Iterated reinitialization -/

theorem applyIter_shapes (g : ℕ → Val) :
    ∀ (k : ℕ) (m : NNModule) (c : ℕ),
      paramShapes (applyIter g k (m, c)).1 = paramShapes m
  | 0, m, c => rfl
  | k + 1, m, c => by
    simp only [applyIter]
    rw [applyIter_shapes g k (net_apply g c m).1 (net_apply g c m).2,
      (net_apply_preserves g c m).2]

/-! ## The traced builder computes the same result as the plain one -/

theorem foldl_pair_snd {α β γ : Type} (f1 : α → α) (f2 : β → β) :
    ∀ (l : List γ) (p : α × β),
      (l.foldl (fun q _ => (f1 q.1, f2 q.2)) p).2 = l.foldl (fun m _ => f2 m) p.2
  | [], _ => rfl
  | _ :: l, p => foldl_pair_snd f1 f2 l (f1 p.1, f2 p.2)

theorem get_mlp_traced_consistent (a o n h : ℕ) (act : String) (id : ℕ) :
    (get_multilayer_perceptron_traced a o n h act id).2
      = get_multilayer_perceptron a o n h act id := by
  cases hk : actKindOf act with
  | none =>
    simp [get_multilayer_perceptron_traced, get_multilayer_perceptron, hk]
  | some k =>
    simp only [get_multilayer_perceptron_traced, get_multilayer_perceptron, hk]
    rw [foldl_pair_snd (fun x => x ++ [(h, h)])
      (fun m => NNModule.sequential [m, mkLinear h h, NNModule.act k id])
      (List.range (n - 1))
      ([(a, h)], NNModule.sequential [mkLinear a h, NNModule.act k id])]

/-! ## The claims -/

/-- C1: For every hidden_layer_count ≥ 1 and hidden_width ≥ 1, the
network returned by `get_multilayer_perceptron` contains exactly
hidden_layer_count + 1 affine (`Linear`) layers. -/
theorem builder_affine_count (a o n h : ℕ) (act : String) (id : ℕ) (m : NNModule)
    (hn : 1 ≤ n) (_hw : 1 ≤ h)
    (hm : get_multilayer_perceptron a o n h act id = Except.ok m) :
    countLinear m = n + 1 := by
  cases hk : actKindOf act with
  | none => simp [get_multilayer_perceptron, hk] at hm
  | some k =>
    rw [get_mlp_count a o n h id act k hk m hm]
    omega

/-- Witness for C1 at `get_multilayer_perceptron 1 1 1 1 "tanh" 0`. -/
theorem builder_affine_count_witness :
    countLinear (NNModule.sequential
      [NNModule.sequential [NNModule.linear 1 1 [[0]] [0], NNModule.act ActKind.tanh 0],
        NNModule.linear 1 1 [[0]] [0]]) = 1 + 1 :=
  builder_affine_count 1 1 1 1 "tanh" 0 _ (le_refl 1) (le_refl 1) rfl

/-- C2: `get_multilayer_perceptron` succeeds (returns a network) whenever
the activation argument is one of the two recognized values `'tanh'` and
`'relu'`, and fails with the `NotImplementedError` message for every
other activation value. -/
theorem builder_activation_dispatch (a o n h : ℕ) (act : String) (id : ℕ) :
    (act = "tanh" ∨ act = "relu" →
        ∃ m, get_multilayer_perceptron a o n h act id = Except.ok m)
      ∧ (act ≠ "tanh" → act ≠ "relu" →
        get_multilayer_perceptron a o n h act id
          = Except.error "Activation function not implemented") := by
  constructor
  · rintro (rfl | rfl)
    · exact ⟨_, get_mlp_ok a o n h id "tanh" ActKind.tanh rfl⟩
    · exact ⟨_, get_mlp_ok a o n h id "relu" ActKind.relu rfl⟩
  · intro h1 h2
    have hk : actKindOf act = none := by simp [actKindOf, h1, h2]
    simp [get_multilayer_perceptron, hk]

/-- Witness for C2: `"tanh"` succeeds, `"sigmoid"` fails. -/
theorem builder_activation_dispatch_witness :
    (∃ m, get_multilayer_perceptron 1 1 1 32 "tanh" 0 = Except.ok m)
      ∧ get_multilayer_perceptron 1 1 1 32 "sigmoid" 0
          = Except.error "Activation function not implemented" :=
  ⟨(builder_activation_dispatch 1 1 1 32 "tanh" 0).1 (Or.inl rfl),
    (builder_activation_dispatch 1 1 1 32 "sigmoid" 0).2 (by decide) (by decide)⟩

/-- C3: Running the weight initializer over any network overwrites, for
every affine layer, every entry of its weight matrix and bias vector
with an independent fresh draw from Normal(0, 0.5): the parameter list
afterwards consists exactly of the draws `normalDraw 0 (1/2)` taken at
pairwise-distinct consecutive fresh stream positions, one per entry,
and the stream counter advances by the total number of entries. -/
theorem init_overwrites_every_param (g : ℕ → Val) (c : ℕ) (m : NNModule) :
    params (net_apply g c m).1
        = (List.range (params m).length).map (fun j => normalDraw 0 (1/2) g (c + j))
      ∧ (net_apply g c m).2 = c + (params m).length :=
  net_apply_params g c m

/-- C4: For hidden_layer_count ≥ 1 the layer sequence of the built
network is Affine(input → hidden) then Activation, followed by
(hidden_layer_count − 1) repetitions of Affine(hidden → hidden) then
Activation, followed by a final Affine(hidden → output) with no
trailing activation; consecutive affine dimensions chain. -/
theorem builder_layer_sequence (a o n h : ℕ) (act : String) (id : ℕ)
    (k : ActKind) (m : NNModule)
    (_hn : 1 ≤ n) (hk : actKindOf act = some k)
    (hm : get_multilayer_perceptron a o n h act id = Except.ok m) :
    flatten m
      = [mkLinear a h, NNModule.act k id]
        ++ (List.replicate (n - 1) [mkLinear h h, NNModule.act k id]).flatten
        ++ [mkLinear h o]
      ∧ List.Chain' (fun p q => p.2 = q.1) ((flatten m).filterMap linearDims) := by
  have hf := get_mlp_flatten a o n h id act k hk m hm
  refine ⟨hf, ?_⟩
  rw [hf]
  simp only [List.filterMap_append, filterMap_linearDims_rep]
  simp only [mkLinear, List.filterMap_cons, linearDims, List.filterMap_nil]
  simp only [Option.some.injEq, List.cons_append, List.nil_append]
  exact chain_dims h o (n - 1) a

/-- Witness for C4 at `get_multilayer_perceptron 1 1 1 1 "tanh" 0`. -/
theorem builder_layer_sequence_witness :
    flatten (NNModule.sequential
        [NNModule.sequential [NNModule.linear 1 1 [[0]] [0], NNModule.act ActKind.tanh 0],
          NNModule.linear 1 1 [[0]] [0]])
      = [mkLinear 1 1, NNModule.act ActKind.tanh 0]
        ++ (List.replicate (1 - 1) [mkLinear 1 1, NNModule.act ActKind.tanh 0]).flatten
        ++ [mkLinear 1 1]
      ∧ List.Chain' (fun p q => p.2 = q.1)
          ((flatten (NNModule.sequential
            [NNModule.sequential [NNModule.linear 1 1 [[0]] [0], NNModule.act ActKind.tanh 0],
              NNModule.linear 1 1 [[0]] [0]])).filterMap linearDims) :=
  builder_layer_sequence 1 1 1 1 "tanh" 0 ActKind.tanh _ (le_refl 1) rfl rfl

/-- C5: For hidden_layer_count ≤ 1 (in particular 0) the builder's
hidden-layer loop runs zero times, yet the network still contains one
hidden affine + activation pair before the output layer: exactly 2
affine layers, input → hidden and hidden → output, not a direct
input → output map. -/
theorem builder_min_one_hidden (a o n h : ℕ) (act : String) (id : ℕ)
    (k : ActKind) (m : NNModule)
    (hn : n ≤ 1) (hk : actKindOf act = some k)
    (hm : get_multilayer_perceptron a o n h act id = Except.ok m) :
    List.range (n - 1) = []
      ∧ countLinear m = 2
      ∧ flatten m = [mkLinear a h, NNModule.act k id, mkLinear h o] := by
  have hr : n - 1 = 0 := by omega
  refine ⟨by rw [hr]; rfl, ?_, ?_⟩
  · rw [get_mlp_count a o n h id act k hk m hm, hr]
  · rw [get_mlp_flatten a o n h id act k hk m hm, hr]
    rfl

/-- Witness for C5 at `get_multilayer_perceptron 1 1 0 1 "tanh" 0`. -/
theorem builder_min_one_hidden_witness :
    List.range (0 - 1) = []
      ∧ countLinear (NNModule.sequential
          [NNModule.sequential [NNModule.linear 1 1 [[0]] [0], NNModule.act ActKind.tanh 0],
            NNModule.linear 1 1 [[0]] [0]]) = 2
      ∧ flatten (NNModule.sequential
          [NNModule.sequential [NNModule.linear 1 1 [[0]] [0], NNModule.act ActKind.tanh 0],
            NNModule.linear 1 1 [[0]] [0]])
        = [mkLinear 1 1, NNModule.act ActKind.tanh 0, mkLinear 1 1] :=
  builder_min_one_hidden 1 1 0 1 "tanh" 0 ActKind.tanh _ (by decide) rfl rfl

/-- C6: The weight initializer applied through the recursive module
traversal reaches and re-initializes every affine layer at arbitrary
nesting depth: the flattened result of `net.apply(init_weights)` equals
the sequential reinitialization of the flattened layer list, with the
same final stream counter. -/
theorem init_reaches_nested_layers (g : ℕ → Val) (c : ℕ) (m : NNModule) :
    flatten (net_apply g c m).1 = (initFlat g c (flatten m)).1
      ∧ (net_apply g c m).2 = (initFlat g c (flatten m)).2 :=
  net_apply_flatten g c m

/-- C7: The weight initializer leaves every non-affine layer unchanged:
activation modules come back identical with an untouched counter, and
erasing the `Linear` weights and biases from the result gives back the
original network with its weights and biases erased, so nothing but
those parameters is modified. -/
theorem init_touches_only_linear (g : ℕ → Val) (c : ℕ) :
    (∀ m : NNModule, eraseParams (net_apply g c m).1 = eraseParams m)
      ∧ ∀ (k : ActKind) (j : ℕ),
          net_apply g c (NNModule.act k j) = (NNModule.act k j, c) :=
  ⟨fun m => (net_apply_preserves g c m).1, fun _ _ => rfl⟩

/-- C8: Any number of repeated weight-initializer passes leaves the
shape of every layer's weight matrix and bias vector unchanged. -/
theorem repeated_init_preserves_shapes (g : ℕ → Val) (c : ℕ) (m : NNModule) (k : ℕ) :
    paramShapes (applyIter g k (m, c)).1 = paramShapes m :=
  applyIter_shapes g k m c

/-- C9: On an unrecognized activation the builder fails synchronously
before constructing any layer: the allocation trace is empty and the
result is the error, so no partial network exists and no layer
allocation side effect has occurred. -/
theorem builder_error_before_alloc (a o n h : ℕ) (act : String) (id : ℕ)
    (h1 : act ≠ "tanh") (h2 : act ≠ "relu") :
    get_multilayer_perceptron_traced a o n h act id
      = ([], Except.error "Activation function not implemented") := by
  have hk : actKindOf act = none := by simp [actKindOf, h1, h2]
  simp [get_multilayer_perceptron_traced, hk]

/-- Witness for C9 at activation `"sigmoid"`. -/
theorem builder_error_before_alloc_witness :
    get_multilayer_perceptron_traced 1 1 1 32 "sigmoid" 0
      = ([], Except.error "Activation function not implemented") :=
  builder_error_before_alloc 1 1 1 32 "sigmoid" 0 (by decide) (by decide)

/-- C10: Every activation position of a built network holds the single
activation object constructed once before the layer loop: all
activation modules in the flattened network carry the same object id
`nextObj`, the one fresh id the builder consumed. -/
theorem builder_single_activation_object (a o n h : ℕ) (act : String) (id : ℕ)
    (k : ActKind) (m : NNModule)
    (hk : actKindOf act = some k)
    (hm : get_multilayer_perceptron a o n h act id = Except.ok m) :
    (flatten m).filterMap actIdOf = List.replicate (1 + (n - 1)) id := by
  rw [get_mlp_flatten a o n h id act k hk m hm]
  simp only [List.filterMap_append, filterMap_actIdOf_rep]
  simp only [mkLinear, List.filterMap_cons, actIdOf, List.filterMap_nil]
  simp only [Nat.add_comm 1 (n - 1), List.replicate_succ]
  simp

/-- Witness for C10 at `get_multilayer_perceptron 1 1 1 1 "tanh" 5`. -/
theorem builder_single_activation_object_witness :
    (flatten (NNModule.sequential
        [NNModule.sequential [NNModule.linear 1 1 [[0]] [0], NNModule.act ActKind.tanh 5],
          NNModule.linear 1 1 [[0]] [0]])).filterMap actIdOf
      = List.replicate (1 + (1 - 1)) 5 :=
  builder_single_activation_object 1 1 1 1 "tanh" 5 ActKind.tanh _ rfl rfl
